import Mathlib

/-!
Verification development for the gossip content pipeline.

The pipeline consists of five separately-invoked stage programs sharing a
single JSON record store:
  tool 1 (monitor_rss)     : Discovery — poll RSS feeds, classify, append
                             new records at status "detected".
  tool 2 (download_images) : Enrichment — scrape article, download and judge
                             candidate images, promote to "image_downloaded".
  tool 3 (generate)        : Composition — generate title and post text,
                             promote to "content_generated".
  tool 4 (make_site)       : Site generation — renders pages, never mutates
                             the store.
  tool 5 (post_to_x)       : Publication — post to X, stamp the record and
                             promote to "posted".

The shallow embedding below models each stage's record manipulation as pure
Lean functions.  External effects (HTTP fetches, the Gemini classifier, the
X posting API, wall-clock ids) are passed in as oracle functions; the local
filesystem is modelled as a list of file paths.  Python strings are modelled
as Lean `String` with explicit character-list helpers mirroring Python's
code-point-level slicing and case mapping.
-/

/-- A work item record in the store, one per discovered article.  Fields are
exactly the JSON keys written by the pipeline; keys that a stage adds later
(`article_content`, `additional_images`, `posted_at`, `final_url`) are
modelled as always-present fields whose default `""` / `[]` means absent. -/
structure Topic where
  id : String
  timestamp : String
  source_type : String
  source_name : String
  source_article_url : String
  article_title : String
  article_summary : String
  article_image_url : String
  celebrities : List String
  topic : String
  status : String
  downloaded_image : String
  upscaled_image : String
  generated_title : String
  generated_post_text : String
  onelink_url : String
  posted_tweet_id : String
  manual_approved : Bool
  article_content : String
  additional_images : List String
  posted_at : String
  final_url : String
deriving DecidableEq, Repr

/-- Character-level model of Python string slicing `s[:n]` (by code points). -/
def pyslice (s : String) (n : Nat) : String := String.mk (s.data.take n)

/-- Character-level model of Python `str.upper()` (ASCII-accurate). -/
def pyupper (s : String) : String := String.mk (s.data.map Char.toUpper)

/-- Character-level model of Python `str.strip()`. -/
def pystrip (s : String) : String :=
  String.mk (((s.data.dropWhile Char.isWhitespace).reverse.dropWhile Char.isWhitespace).reverse)

/-- Model of Python `str.endswith('/')`. -/
def endsWithSlash (s : String) : Bool := s.data.getLast? == some '/'

/-- The filesystem is modelled as the list of existing file paths. -/
abbrev FS := List String

/-- Writing a file: the path exists afterwards (overwrite is a no-op on the
path set). -/
def fsWrite (fs : FS) (p : String) : FS := if p ∈ fs then fs else fs ++ [p]

namespace MonitorRss

/-- `load_data` of tool 1 (monitor_rss): if the data file does not exist,
return `[]`, else parse it.  The store file is modelled as
`Option (List Topic)`, `none` meaning the file does not exist. -/
def load_data (store : Option (List Topic)) : Except String (List Topic) :=
  match store with
  | some d => Except.ok d
  | none => Except.ok []

end MonitorRss

namespace DownloadImages

/-- `load_data` of tool 2 (download_images): same existence check as tool 1. -/
def load_data (store : Option (List Topic)) : Except String (List Topic) :=
  match store with
  | some d => Except.ok d
  | none => Except.ok []

end DownloadImages

namespace MakeSite

/-- `load_data` of tool 4 (make_site): same existence check as tool 1. -/
def load_data (store : Option (List Topic)) : Except String (List Topic) :=
  match store with
  | some d => Except.ok d
  | none => Except.ok []

end MakeSite

namespace Generate

/-- `load_data` of tool 3 (generate): opens the data file with no existence
check, so a missing file raises `FileNotFoundError`. -/
def load_data (store : Option (List Topic)) : Except String (List Topic) :=
  match store with
  | some d => Except.ok d
  | none => Except.error "FileNotFoundError"

end Generate

namespace PostToX

/-- `load_data` of tool 5 (post_to_x): opens the data file with no existence
check, so a missing file raises `FileNotFoundError`. -/
def load_data (store : Option (List Topic)) : Except String (List Topic) :=
  match store with
  | some d => Except.ok d
  | none => Except.error "FileNotFoundError"

end PostToX

namespace DownloadImages

/-- `download_image` of tool 2.  The HTTP response is an oracle:
`none` models a network exception inside `requests.get`; `some (status, n)`
models a response with HTTP status `status` and `n` content bytes.
`raise_for_status` raises for status ≥ 400.  Content below 10240 bytes is
rejected before any file is written.  On success the file is written at
`save_path`.  Returns the Python boolean result and the updated filesystem. -/
def download_image (resp : Option (Nat × Nat)) (save_path : String) (fs : FS) :
    Bool × FS :=
  match resp with
  | none => (false, fs)
  | some (status, contentLen) =>
    if 400 ≤ status then (false, fs)
    else if contentLen < 10240 then (false, fs)
    else (true, fsWrite fs save_path)

end DownloadImages

namespace MonitorRss

/-- A parsed RSS entry after tool 1's summary-selection logic: `summary` is
the body text chosen from `content` / `summary` / `description` in that
priority order. -/
structure Entry where
  link : String
  title : String
  summary : String
deriving DecidableEq, Repr

/-- The structured verdict parsed from the Gemini relevance call in
`check_celebrity_gossip`. -/
structure GossipResult where
  is_celebrity_gossip : Bool
  celebrities : List String
  topic : String
deriving DecidableEq, Repr

/-- One configured RSS source: name plus the entries its feed returns
(`get_rss_entries`; a fetch/parse failure is the empty list). -/
structure Source where
  sname : String
  entries : List Entry
deriving Repr

/-- The external world as Discovery sees it: the classifier verdict per
entry (`none` models a Gemini API error or unparsable response), the
image-URL extraction regex, and the wall-clock id/timestamp generators. -/
structure DOracle where
  classify : Entry → Option GossipResult
  extractImage : String → Option String
  genId : Entry → String
  nowIso : Entry → String

/-- `is_already_processed` of tool 1: the deduplication check against the
in-memory store. -/
def is_already_processed (data : List Topic) (article_url : String) : Bool :=
  data.any (fun item => item.source_article_url == article_url)

/-- The new-record dictionary appended by tool 1's `main` for an accepted
entry. -/
def mkTopic (o : DOracle) (source_name : String) (e : Entry) (r : GossipResult) :
    Topic :=
  { id := o.genId e
    timestamp := o.nowIso e
    source_type := "rss"
    source_name := source_name
    source_article_url := e.link
    article_title := e.title
    article_summary := pyslice e.summary 500
    article_image_url := (o.extractImage e.summary).getD ""
    celebrities := r.celebrities
    topic := r.topic
    status := "detected"
    downloaded_image := ""
    upscaled_image := ""
    generated_title := ""
    generated_post_text := ""
    onelink_url := ""
    posted_tweet_id := ""
    manual_approved := false
    article_content := ""
    additional_images := []
    posted_at := ""
    final_url := "" }

/-- The per-entry body of tool 1's `main` loop: skip if the link is already
in the store, otherwise classify and append the record when the verdict is
a celebrity-gossip hit with a non-empty celebrity list. -/
def processEntry (o : DOracle) (source_name : String) (data : List Topic)
    (e : Entry) : List Topic :=
  if is_already_processed data e.link then data
  else
    match o.classify e with
    | none => data
    | some r =>
      if r.is_celebrity_gossip && !r.celebrities.isEmpty then
        data ++ [mkTopic o source_name e r]
      else data

/-- Number of classifier calls made for one entry: the dedup check runs
before `check_celebrity_gossip`, so a dedup hit makes zero calls. -/
def entryClassifierCalls (data : List Topic) (e : Entry) : Nat :=
  if is_already_processed data e.link then 0 else 1

/-- One source's slice of tool 1's `main` loop: only the newest 10 entries
are examined. -/
def processSource (o : DOracle) (s : Source) (data : List Topic) : List Topic :=
  (s.entries.take 10).foldl (processEntry o s.sname) data

/-- A full Discovery run over the configured sources. -/
def discoveryRun (o : DOracle) (sources : List Source) (data : List Topic) :
    List Topic :=
  sources.foldl (fun d s => processSource o s d) data

/-- Whether the classifier verdict leads tool 1 to store the entry. -/
def acceptedEntry (o : DOracle) (e : Entry) : Bool :=
  match o.classify e with
  | some r => r.is_celebrity_gossip && !r.celebrities.isEmpty
  | none => false

end MonitorRss

namespace MonitorRss

/-- Pairwise distinctness of the deduplication keys in the store. -/
def urlsDistinct (data : List Topic) : Prop :=
  data.Pairwise (fun a b => a.source_article_url ≠ b.source_article_url)

end MonitorRss

namespace DownloadImages

/-- Substring test for the two-character pattern `OK`. -/
def hasOK : List Char → Bool
  | [] => false
  | 'O' :: 'K' :: _ => true
  | _ :: rest => hasOK rest

/-- The body of one attempt of `judge_image_with_gemini` once a response
text arrives: `"OK" in response.text.strip().upper()`. -/
def responseSaysOK (txt : String) : Bool := hasOK (pyupper (pystrip txt)).data

/-- The retry loop of `judge_image_with_gemini`: `attempts i` is the text
returned by the i-th Gemini call, `none` modelling an exception (API error,
timeout, unreadable file).  An exception is retried; a response returns
immediately; exhausting the budget returns `False` — indistinguishable from
an explicit NG verdict. -/
def judgeGo (attempts : Nat → Option String) : Nat → Nat → Bool
  | 0, _ => false
  | fuel + 1, i =>
    match attempts i with
    | some txt => responseSaysOK txt
    | none => judgeGo attempts fuel (i + 1)

/-- `judge_image_with_gemini` of tool 2, with its default `max_retries=3`. -/
def judge_image_with_gemini (attempts : Nat → Option String) : Bool :=
  judgeGo attempts 3 0

/-- The sanitized celebrity-name fragment of the image save path:
`re.sub` removing every character outside the word / whitespace / hyphen
classes from `'_'.join(celebrities)` (ASCII approximation of `\w`). -/
def safeNames (celebrities : List String) : String :=
  String.mk ((String.intercalate "_" celebrities).data.filter
    (fun c => c.isAlphanum || c == '_' || c.isWhitespace || c == '-'))

/-- The save path `./images/{topic_id}_{safe_names}_{img_number}.jpg`. -/
def mkSavePath (topic_id safe_names : String) (img_number : Nat) : String :=
  "./images/" ++ topic_id ++ "_" ++ safe_names ++ "_" ++ Nat.repr img_number
    ++ ".jpg"

/-- The external world as `process_topic` sees it for one topic: whether the
article page fetch succeeds, the extracted body text, the `og:image` URL,
the in-article image URLs, the HTTP response for the n-th candidate's
download (as in `download_image`), and the Gemini judgment attempts for the
n-th candidate. -/
structure EnrichOracle where
  fetchOk : Bool
  content : String
  og_image : Option String
  article_images : List String
  http : Nat → Option (Nat × Nat)
  judgeAttempts : Nat → Nat → Option String

/-- The download-and-judge loop of `process_topic`: walks the candidate list
carrying the candidate index, the approved save paths so far and the
filesystem.  The save-path number is `len(approved_images) + 2`; a rejected
candidate's file is removed immediately. -/
def enrichLoop (o : EnrichOracle) (tid safe : String) :
    List String → Nat → List String → FS → List String × FS
  | [], _, approved, fs => (approved, fs)
  | _u :: rest, i, approved, fs =>
    let path := mkSavePath tid safe (approved.length + 2)
    let dl := download_image (o.http i) path fs
    if dl.1 then
      if judge_image_with_gemini (o.judgeAttempts i) then
        enrichLoop o tid safe rest (i + 1) (approved ++ [path]) dl.2
      else
        enrichLoop o tid safe rest (i + 1) approved (dl.2.erase path)
    else enrichLoop o tid safe rest (i + 1) approved fs

/-- Result of `process_topic`: the mutated record, the Python return value,
and the filesystem. -/
structure EnrichResult where
  topic : Topic
  success : Bool
  fs : FS
deriving Repr

/-- The result-saving tail of `process_topic`: set `downloaded_image`,
`additional_images` (only when more than one), promote the status, then
the duplicate-removal block that deletes the first approved file whenever
two or more candidates were approved and shifts the references. -/
def enrichFinalize (t0 : Topic) (approved : List String) (fs : FS) :
    EnrichResult :=
  match approved with
  | [] => ⟨t0, false, fs⟩
  | a :: rest =>
    let t1 : Topic :=
      { t0 with
        downloaded_image := a
        additional_images := if rest.isEmpty then t0.additional_images else rest
        status := "image_downloaded" }
    match rest with
    | [] => ⟨t1, true, fs⟩
    | b :: rest2 =>
      if a ∈ fs then
        ⟨{ t1 with downloaded_image := b, additional_images := rest2 }, true,
          fs.erase a⟩
      else ⟨t1, true, fs⟩

/-- `process_topic` of tool 2 for one record: fetch the article page (on
failure return `False` untouched), store the extracted body text when
non-empty, collect candidates (`og:image` first, then at most three
in-article images), run the download-and-judge loop, and save the result. -/
def process_topic (o : EnrichOracle) (t : Topic) (fs : FS) : EnrichResult :=
  if o.fetchOk = false then ⟨t, false, fs⟩
  else
    let t0 := if o.content ≠ "" then { t with article_content := o.content } else t
    let candidates :=
      (match o.og_image with | some u => [u] | none => []) ++
        o.article_images.take 3
    if candidates.isEmpty then ⟨t0, false, fs⟩
    else
      let r := enrichLoop o t.id (safeNames t.celebrities) candidates 0 [] fs
      enrichFinalize t0 r.1 r.2

/-- Tool 2's `main` loop: process every record whose status is `detected`,
threading the filesystem through; all other records are untouched. -/
def enrichRunAux (oracle : Topic → EnrichOracle) :
    List Topic → FS → List Topic × FS
  | [], fs => ([], fs)
  | t :: rest, fs =>
    if t.status = "detected" then
      let r := process_topic (oracle t) t fs
      let tail := enrichRunAux oracle rest r.fs
      (r.topic :: tail.1, tail.2)
    else
      let tail := enrichRunAux oracle rest fs
      (t :: tail.1, tail.2)

end DownloadImages


namespace DownloadImages

/-- The save paths `mkSavePath tid safe start`, `... (start+1)`, … for `cnt`
consecutive image numbers: the shape of the approved list maintained by
`enrichLoop` (numbers start at 2). -/
def pathsFrom (tid safe : String) : Nat → Nat → List String
  | _, 0 => []
  | start, cnt + 1 =>
    mkSavePath tid safe start :: pathsFrom tid safe (start + 1) cnt

end DownloadImages

namespace Generate

/-- The structured result parsed from the Gemini generation call in
`generate_content`. -/
structure GenResult where
  title : String
  post_text : String
deriving DecidableEq, Repr

/-- The retry loop of `generate_content`: `attempts i` is the parsed result
of the i-th Gemini call, `none` modelling any exception (API error, quota
wait, unparsable response).  Exhausting the budget yields `None`. -/
def genLoop (attempts : Nat → Option GenResult) : Nat → Nat → Option GenResult
  | 0, _ => none
  | fuel + 1, i =>
    match attempts i with
    | some r => some r
    | none => genLoop attempts fuel (i + 1)

/-- `generate_content` of tool 3, with its default `max_retries=3`. -/
def generate_content (attempts : Nat → Option GenResult) : Option GenResult :=
  genLoop attempts 3 0

/-- Tool 3's `main` body for one record: records with
status `image_downloaded` and no generated title get the generated title and
post text stored verbatim and are promoted to `content_generated`; a `None`
generation result leaves the record unchanged. -/
def compositionRecord (attempts : Nat → Option GenResult) (t : Topic) : Topic :=
  if t.status = "image_downloaded" ∧ t.generated_title = "" then
    match generate_content attempts with
    | some c =>
      { t with
        generated_title := c.title
        generated_post_text := c.post_text
        status := "content_generated" }
    | none => t
  else t

/-- A full Composition run: tool 3 filters the pending records and mutates
them in place, which is the same as mapping the per-record body over the
store. -/
def compositionRun (oracle : Topic → Nat → Option GenResult)
    (data : List Topic) : List Topic :=
  data.map (fun t => compositionRecord (oracle t) t)

end Generate

namespace PostToX

/-- `generate_page_url` of tool 5: join the configured base URL (with a
trailing slash added if missing) with `{topic_id}.html`. -/
def generate_page_url (base_url topic_id : String) : String :=
  (if endsWithSlash base_url then base_url else base_url ++ "/") ++ topic_id
    ++ ".html"

/-- The message composition inside `post_to_twitter`: short text, blank
line, site URL; if the combined length exceeds 280 the short text is cut to
`280 - 25 - 5` characters and an ellipsis is appended. -/
def compose_full_text (post_text site_url : String) : String :=
  let full := post_text ++ "\n\n" ++ site_url
  if full.length > 280 then
    pyslice post_text (280 - 25 - 5) ++ "..." ++ "\n\n" ++ site_url
  else full

/-- `post_to_twitter` of tool 5: compose the outbound text and submit it;
the posting API is an oracle returning the assigned tweet id, `none`
modelling a `create_tweet` exception. -/
def post_to_twitter (postApi : String → Option String) (t : Topic)
    (base_url : String) : Option String :=
  postApi (compose_full_text t.generated_post_text
    (generate_page_url base_url t.id))

/-- The operator's answer in `approve_topic_interactive`:
y / n / q. -/
inductive ApprovalChoice
  | approve
  | skip
  | quit
deriving DecidableEq, Repr

/-- The external world as tool 5's `main` sees it: the operator's answer per
record, the posting API, and the wall clock. -/
structure PubOracle where
  approval : Topic → ApprovalChoice
  postApi : String → Option String
  now : String

/-- The stamping of a successfully posted record in tool 5's `main`. -/
def stampTopic (t : Topic) (tweet_id now base_url : String) : Topic :=
  { t with
    posted_tweet_id := tweet_id
    status := "posted"
    posted_at := now
    final_url := generate_page_url base_url t.id }

/-- The `ready_topics` filter of tool 5: composed and not yet posted. -/
def isReady (t : Topic) : Bool :=
  t.status == "content_generated" && t.posted_tweet_id == ""

/-- The run state of tool 5's `main`: the in-memory store, the store as
last written to disk by `save_data`, and whether the operator quit. -/
structure PubState where
  data : List Topic
  persisted : List Topic
  stopped : Bool
deriving Repr

/-- One iteration of tool 5's posting loop, acting on the record at index
`i`: ask the operator; on approval post; on success stamp the record and
immediately persist the whole store; on posting failure or skip change
nothing; on quit stop the loop. -/
def pubProcessIdx (o : PubOracle) (base_url : String) (s : PubState)
    (i : Nat) : PubState :=
  if s.stopped then s
  else
    match s.data.get? i with
    | none => s
    | some t =>
      match o.approval t with
      | ApprovalChoice.quit => { s with stopped := true }
      | ApprovalChoice.skip => s
      | ApprovalChoice.approve =>
        match post_to_twitter o.postApi t base_url with
        | none => s
        | some tid =>
          let d := s.data.set i (stampTopic t tid o.now base_url)
          { data := d, persisted := d, stopped := s.stopped }

/-- The indices of the `ready_topics` computed before the loop. -/
def readyIdx (data : List Topic) : List Nat :=
  (List.range data.length).filter
    (fun i =>
      match data.get? i with
      | some t => isReady t
      | none => false)

/-- A full Publication run of tool 5's `main`. -/
def pubRun (o : PubOracle) (base_url : String) (data persisted : List Topic) :
    PubState :=
  (readyIdx data).foldl (pubProcessIdx o base_url) ⟨data, persisted, false⟩

end PostToX

/-- The lifecycle chain `detected → image_downloaded → content_generated →
posted`. -/
def nextStatus : String → Option String
  | "detected" => some "image_downloaded"
  | "image_downloaded" => some "content_generated"
  | "content_generated" => some "posted"
  | _ => none

/-- A stage may leave a record's lifecycle state unchanged or advance it
exactly one step along the chain. -/
def Allowed (t tNew : Topic) : Prop :=
  tNew.status = t.status ∨ nextStatus t.status = some tNew.status

/-- A sample freshly detected record, used to evaluate the theorems at
concrete inputs. -/
def tDet : Topic :=
  { id := "t1"
    timestamp := ""
    source_type := "rss"
    source_name := "s"
    source_article_url := "https://example.com/a"
    article_title := "T"
    article_summary := "S"
    article_image_url := ""
    celebrities := ["abc"]
    topic := "tp"
    status := "detected"
    downloaded_image := ""
    upscaled_image := ""
    generated_title := ""
    generated_post_text := ""
    onelink_url := ""
    posted_tweet_id := ""
    manual_approved := false
    article_content := ""
    additional_images := []
    posted_at := ""
    final_url := "" }

/-- The sample record advanced to `image_downloaded`. -/
def tImg : Topic :=
  { tDet with status := "image_downloaded", downloaded_image := "./images/x.jpg" }

/-- The sample record advanced to `content_generated`. -/
def tGen : Topic :=
  { tImg with
    status := "content_generated"
    generated_title := "GT"
    generated_post_text := "hello" }

namespace DownloadImages

/-- Concrete enrichment oracle with two candidates that both download and
are both judged OK. -/
def eoTwoAccept : EnrichOracle :=
  { fetchOk := true
    content := ""
    og_image := some "http://x/1.jpg"
    article_images := ["http://x/2.jpg"]
    http := fun _ => some (200, 20000)
    judgeAttempts := fun _ _ => some "OK" }

/-- Concrete enrichment oracle with one candidate whose download succeeds
but whose Gemini judgment raises on every attempt. -/
def eoJudgeErr : EnrichOracle :=
  { fetchOk := true
    content := ""
    og_image := some "http://x/1.jpg"
    article_images := []
    http := fun _ => some (200, 20000)
    judgeAttempts := fun _ _ => none }

/-- Concrete enrichment oracle whose page fetch fails. -/
def eoNoFetch : EnrichOracle :=
  { fetchOk := false
    content := ""
    og_image := none
    article_images := []
    http := fun _ => none
    judgeAttempts := fun _ _ => none }

end DownloadImages

/-- A 284-character base URL, exceeding what the Publication truncation
budget allows for. -/
def longBase : String := String.mk (List.replicate 284 'a')


/-- A 100-character generated post text, exceeding the 80-character budget
stated in tool 3's prompt. -/
def longPost : String := String.mk (List.replicate 100 'x')

/-- A generation result whose post text is 100 characters long. -/
def genLong : Generate.GenResult := { title := "T", post_text := longPost }


/-- Concrete publication oracle: operator approves everything, the posting
API always succeeds with tweet id `99`. -/
def poOK : PostToX.PubOracle :=
  { approval := fun _ => PostToX.ApprovalChoice.approve
    postApi := fun _ => some "99"
    now := "ts" }

/-- Concrete publication oracle: operator approves everything, the posting
API always fails. -/
def poFail : PostToX.PubOracle :=
  { approval := fun _ => PostToX.ApprovalChoice.approve
    postApi := fun _ => none
    now := "ts" }


/-- A discovery oracle whose classifier always fails, used to evaluate the
theorems at concrete inputs. -/
def dOrEmpty : MonitorRss.DOracle :=
  { classify := fun _ => none
    extractImage := fun _ => none
    genId := fun _ => ""
    nowIso := fun _ => "" }

-- ===== THEOREMS =====

/-- Claim C8: the claim asserts every stage's loader returns an empty
sequence when the store file is missing; but tool 3 (generate) and tool 5
(post_to_x) open the file without an existence check and fail with
`FileNotFoundError`. -/
theorem c8_counterexample :
    Generate.load_data none = Except.error "FileNotFoundError" ∧
    PostToX.load_data none = Except.error "FileNotFoundError" := by
  constructor <;> rfl

/-- Claim C8 (amended): loading the Record Store when the store file does not
exist returns an empty sequence in the Discovery (tool 1), Enrichment
(tool 2) and Site-generation (tool 4) stages, but fails with a
file-not-found error in the Composition (tool 3) and Publication (tool 5)
stages. -/
theorem c8_load_missing_store :
    MonitorRss.load_data none = Except.ok [] ∧
    DownloadImages.load_data none = Except.ok [] ∧
    MakeSite.load_data none = Except.ok [] ∧
    Generate.load_data none = Except.error "FileNotFoundError" ∧
    PostToX.load_data none = Except.error "FileNotFoundError" := by
  refine ⟨rfl, rfl, rfl, rfl, rfl⟩

/-- Claim C10: `download_image` creates the file at the save path iff it
returns `True`; on a network/HTTP error or when the content is below the
10240-byte minimum it returns `False` and writes nothing. -/
theorem c10_download_image_write_iff (resp : Option (Nat × Nat))
    (save_path : String) (fs : FS) (hnew : save_path ∉ fs) :
    ((DownloadImages.download_image resp save_path fs).1 = true ↔
      save_path ∈ (DownloadImages.download_image resp save_path fs).2) ∧
    ((DownloadImages.download_image resp save_path fs).1 = false →
      (DownloadImages.download_image resp save_path fs).2 = fs) ∧
    (resp = none → (DownloadImages.download_image resp save_path fs).1 = false) ∧
    (∀ status contentLen, resp = some (status, contentLen) →
      (400 ≤ status ∨ contentLen < 10240) →
      (DownloadImages.download_image resp save_path fs).1 = false) := by
  refine ⟨?_, ?_, ?_, ?_⟩
  · match resp with
    | none =>
      simp only [DownloadImages.download_image]
      exact ⟨fun h => Bool.noConfusion h, fun h => absurd h hnew⟩
    | some (status, contentLen) =>
      simp only [DownloadImages.download_image]
      by_cases h4 : 400 ≤ status
      · simp only [if_pos h4]
        exact ⟨fun h => Bool.noConfusion h, fun h => absurd h hnew⟩
      · simp only [if_neg h4]
        by_cases hlen : contentLen < 10240
        · simp only [if_pos hlen]
          exact ⟨fun h => Bool.noConfusion h, fun h => absurd h hnew⟩
        · simp only [if_neg hlen, fsWrite, if_neg hnew]
          simp
  · match resp with
    | none => intro _; rfl
    | some (status, contentLen) =>
      simp only [DownloadImages.download_image]
      by_cases h4 : 400 ≤ status
      · simp [if_pos h4]
      · simp only [if_neg h4]
        by_cases hlen : contentLen < 10240
        · simp [if_pos hlen]
        · simp [if_neg hlen]
  · intro h; subst h; rfl
  · intro status contentLen h hor; subst h
    simp only [DownloadImages.download_image]
    rcases hor with h4 | hlen
    · simp [if_pos h4]
    · by_cases h4 : 400 ≤ status
      · simp [if_pos h4]
      · simp [if_neg h4, if_pos hlen]

/-- Witness for C10 at a concrete input: a successful 200-status download of
20000 bytes to a fresh path returns `True` and creates the file. -/
theorem c10_witness :
    "./images/a.jpg" ∉ ([] : FS) ∧
    ((DownloadImages.download_image (some (200, 20000)) "./images/a.jpg" []).1 = true ↔
      "./images/a.jpg" ∈
        (DownloadImages.download_image (some (200, 20000)) "./images/a.jpg" []).2) := by
  refine ⟨by decide, ?_⟩
  exact (c10_download_image_write_iff (some (200, 20000)) "./images/a.jpg" []
    (by decide)).1

namespace MonitorRss

theorem is_already_processed_mkTopic (o : DOracle) (sn : String) (e : Entry)
    (r : GossipResult) (data : List Topic) :
    is_already_processed (data ++ [mkTopic o sn e r]) e.link = true := by
  simp [is_already_processed, List.any_append, mkTopic]

end MonitorRss

namespace MonitorRss

theorem processEntry_mono (o : DOracle) (sn : String) (data : List Topic)
    (e : Entry) (u : String) (h : is_already_processed data u = true) :
    is_already_processed (processEntry o sn data e) u = true := by
  unfold processEntry
  split
  · exact h
  · match o.classify e with
    | none => exact h
    | some r =>
      simp only
      split
      · simpa [is_already_processed, List.any_append] using Or.inl
          (by simpa [is_already_processed] using h)
      · exact h

end MonitorRss

namespace MonitorRss

theorem processEntry_establishes (o : DOracle) (sn : String) (data : List Topic)
    (e : Entry) (hacc : acceptedEntry o e = true) :
    is_already_processed (processEntry o sn data e) e.link = true := by
  unfold processEntry
  split
  · assumption
  · unfold acceptedEntry at hacc
    match hc : o.classify e with
    | none => rw [hc] at hacc; exact absurd hacc (by simp)
    | some r =>
      rw [hc] at hacc
      dsimp only at hacc ⊢
      rw [if_pos hacc]
      exact is_already_processed_mkTopic o sn e r data

end MonitorRss

namespace MonitorRss

theorem foldl_entries_mono (o : DOracle) (sn : String) (l : List Entry)
    (data : List Topic) (u : String) (h : is_already_processed data u = true) :
    is_already_processed (l.foldl (processEntry o sn) data) u = true := by
  induction l generalizing data with
  | nil => exact h
  | cons e rest ih =>
    exact ih (processEntry o sn data e) (processEntry_mono o sn data e u h)

end MonitorRss

namespace MonitorRss

theorem foldl_entries_establishes (o : DOracle) (sn : String) (l : List Entry)
    (data : List Topic) (e : Entry) (he : e ∈ l)
    (hacc : acceptedEntry o e = true) :
    is_already_processed (l.foldl (processEntry o sn) data) e.link = true := by
  induction l generalizing data with
  | nil => cases he
  | cons e0 rest ih =>
    rcases List.mem_cons.mp he with rfl | hmem
    · exact foldl_entries_mono o sn rest (processEntry o sn data e)
        e.link (processEntry_establishes o sn data e hacc)
    · exact ih (processEntry o sn data e0) hmem

end MonitorRss

namespace MonitorRss

theorem discoveryRun_mono (o : DOracle) (sources : List Source)
    (data : List Topic) (u : String) (h : is_already_processed data u = true) :
    is_already_processed (discoveryRun o sources data) u = true := by
  induction sources generalizing data with
  | nil => exact h
  | cons s rest ih =>
    exact ih (processSource o s data) (foldl_entries_mono o s.sname _ data u h)

end MonitorRss

namespace MonitorRss

theorem discoveryRun_establishes (o : DOracle) (sources : List Source)
    (data : List Topic) (s : Source) (e : Entry) (hs : s ∈ sources)
    (he : e ∈ s.entries.take 10) (hacc : acceptedEntry o e = true) :
    is_already_processed (discoveryRun o sources data) e.link = true := by
  induction sources generalizing data with
  | nil => cases hs
  | cons s0 rest ih =>
    rcases List.mem_cons.mp hs with rfl | hmem
    · exact discoveryRun_mono o rest (processSource o s data) e.link
        (foldl_entries_establishes o s.sname _ data e he hacc)
    · exact ih (processSource o s0 data) hmem

end MonitorRss

namespace MonitorRss

theorem discoveryRun_noop (o : DOracle) (sources : List Source)
    (data : List Topic)
    (h : ∀ s ∈ sources, ∀ e ∈ s.entries.take 10, acceptedEntry o e = true →
      is_already_processed data e.link = true) :
    discoveryRun o sources data = data := by
  induction sources with
  | nil => rfl
  | cons s rest ih =>
    have hsrc : processSource o s data = data := by
      unfold processSource
      have hgen : ∀ l : List Entry, (∀ e ∈ l, acceptedEntry o e = true →
          is_already_processed data e.link = true) →
          l.foldl (processEntry o s.sname) data = data := by
        intro l
        induction l with
        | nil => intro _; rfl
        | cons e rest2 ih2 =>
          intro hl
          have hstep : processEntry o s.sname data e = data := by
            unfold processEntry
            split
            · rfl
            · rename_i hnot
              match hc : o.classify e with
              | none => rfl
              | some r =>
                simp only
                split
                · rename_i hok
                  exfalso
                  apply hnot
                  exact hl e (List.mem_cons_self e rest2)
                    (by unfold acceptedEntry; rw [hc]; exact hok)
                · rfl
          rw [List.foldl_cons, hstep]
          exact ih2 (fun e2 he2 => hl e2 (List.mem_cons_of_mem e he2))
      exact hgen _ (h s (List.mem_cons_self s rest))
    show discoveryRun o rest (processSource o s data) = data
    rw [hsrc]
    exact ih (fun s2 hs2 => h s2 (List.mem_cons_of_mem s hs2))

end MonitorRss

namespace MonitorRss

/-- Claim C2: an entry whose link is already a `source_article_url` in the
store is skipped without storing a record and without calling the
classifier; consequently a second Discovery run over an unchanged feed
configuration leaves the store exactly as the first run left it (zero new
records). -/
theorem c2_dedup_skip_and_idempotent (o : DOracle) (sources : List Source)
    (sn : String) (data : List Topic) (e : Entry)
    (hdup : is_already_processed data e.link = true) :
    processEntry o sn data e = data ∧
    entryClassifierCalls data e = 0 ∧
    discoveryRun o sources (discoveryRun o sources data) =
      discoveryRun o sources data := by
  refine ⟨?_, ?_, ?_⟩
  · unfold processEntry
    rw [if_pos hdup]
  · unfold entryClassifierCalls
    rw [if_pos hdup]
  · apply discoveryRun_noop
    intro s hs e2 he2 hacc
    exact discoveryRun_establishes o sources data s e2 hs he2 hacc

end MonitorRss

namespace MonitorRss

/-- Witness for C2 at concrete inputs: a one-record store, an entry with the
same link, and a one-source feed.  The hypothesis (the dedup check fires)
is discharged by evaluation. -/
theorem c2_witness :
    (is_already_processed
      [mkTopic ⟨fun _ => some ⟨true, ["Alice"], "t"⟩, fun _ => none,
        fun _ => "id1", fun _ => "ts1"⟩ "src" ⟨"https://example.com/a", "T", "S"⟩
        ⟨true, ["Alice"], "t"⟩] "https://example.com/a" = true) ∧
    (processEntry ⟨fun _ => some ⟨true, ["Alice"], "t"⟩, fun _ => none,
        fun _ => "id1", fun _ => "ts1"⟩ "src"
      [mkTopic ⟨fun _ => some ⟨true, ["Alice"], "t"⟩, fun _ => none,
        fun _ => "id1", fun _ => "ts1"⟩ "src" ⟨"https://example.com/a", "T", "S"⟩
        ⟨true, ["Alice"], "t"⟩]
      ⟨"https://example.com/a", "T", "S"⟩ =
      [mkTopic ⟨fun _ => some ⟨true, ["Alice"], "t"⟩, fun _ => none,
        fun _ => "id1", fun _ => "ts1"⟩ "src" ⟨"https://example.com/a", "T", "S"⟩
        ⟨true, ["Alice"], "t"⟩]) := by
  refine ⟨by decide, ?_⟩
  exact (c2_dedup_skip_and_idempotent
    ⟨fun _ => some ⟨true, ["Alice"], "t"⟩, fun _ => none,
      fun _ => "id1", fun _ => "ts1"⟩
    [⟨"src", [⟨"https://example.com/a", "T", "S"⟩]⟩] "src"
    [mkTopic ⟨fun _ => some ⟨true, ["Alice"], "t"⟩, fun _ => none,
      fun _ => "id1", fun _ => "ts1"⟩ "src" ⟨"https://example.com/a", "T", "S"⟩
      ⟨true, ["Alice"], "t"⟩]
    ⟨"https://example.com/a", "T", "S"⟩ (by decide)).1

end MonitorRss

namespace MonitorRss

theorem not_processed_iff (data : List Topic) (u : String) :
    is_already_processed data u = false ↔
      ∀ a ∈ data, a.source_article_url ≠ u := by
  unfold is_already_processed
  rw [← Bool.not_eq_true, List.any_eq_true]
  constructor
  · intro h a ha
    intro hequ
    exact h ⟨a, ha, by simp [hequ]⟩
  · rintro h ⟨a, ha, heq⟩
    exact h a ha (by simpa using heq)

end MonitorRss

namespace MonitorRss

theorem processEntry_distinct (o : DOracle) (sn : String) (data : List Topic)
    (e : Entry) (h : urlsDistinct data) :
    urlsDistinct (processEntry o sn data e) := by
  unfold processEntry
  split
  · exact h
  · rename_i hnot
    match o.classify e with
    | none => exact h
    | some r =>
      dsimp only
      split
      · rw [urlsDistinct, List.pairwise_append]
        refine ⟨h, List.pairwise_singleton _ _, ?_⟩
        intro a ha b hb
        rw [List.mem_singleton] at hb
        subst hb
        have := (not_processed_iff data e.link).mp
          (Bool.not_eq_true _ ▸ (by simpa using hnot))
        simpa [mkTopic] using this a ha
      · exact h

end MonitorRss

namespace MonitorRss

theorem foldl_entries_distinct (o : DOracle) (sn : String) (l : List Entry)
    (data : List Topic) (h : urlsDistinct data) :
    urlsDistinct (l.foldl (processEntry o sn) data) := by
  induction l generalizing data with
  | nil => exact h
  | cons e rest ih => exact ih _ (processEntry_distinct o sn data e h)

end MonitorRss

namespace MonitorRss

/-- Claim C9: if all records have pairwise-distinct `source_article_url`
values before a Discovery run, they remain pairwise distinct after it, even
when the same link appears in several feeds or several times in one feed,
because the dedup check consults the in-memory list that already contains
records appended earlier in the run. -/
theorem c9_discovery_preserves_distinct_urls (o : DOracle)
    (sources : List Source) (data : List Topic) (h : urlsDistinct data) :
    urlsDistinct (discoveryRun o sources data) := by
  induction sources generalizing data with
  | nil => exact h
  | cons s rest ih =>
    exact ih _ (foldl_entries_distinct o s.sname _ data h)

end MonitorRss

namespace MonitorRss

/-- Witness for C9 at concrete inputs: the same link appearing in two
sources (and absent from the empty initial store) is stored once and the
result remains distinct. -/
theorem c9_witness :
    urlsDistinct ([] : List Topic) ∧
    urlsDistinct (discoveryRun
      ⟨fun _ => some ⟨true, ["Alice"], "t"⟩, fun _ => none,
        fun _ => "id1", fun _ => "ts1"⟩
      [⟨"srcA", [⟨"https://example.com/a", "T", "S"⟩]⟩,
       ⟨"srcB", [⟨"https://example.com/a", "T", "S"⟩]⟩] []) := by
  refine ⟨List.Pairwise.nil, ?_⟩
  exact c9_discovery_preserves_distinct_urls
    ⟨fun _ => some ⟨true, ["Alice"], "t"⟩, fun _ => none,
      fun _ => "id1", fun _ => "ts1"⟩
    [⟨"srcA", [⟨"https://example.com/a", "T", "S"⟩]⟩,
     ⟨"srcB", [⟨"https://example.com/a", "T", "S"⟩]⟩] []
    List.Pairwise.nil

end MonitorRss

theorem data_append (a b : String) : (a ++ b).data = a.data ++ b.data := rfl

namespace DownloadImages

theorem download_image_cases (resp : Option (Nat × Nat)) (p : String) (fs : FS) :
    download_image resp p fs = (false, fs) ∨
    download_image resp p fs = (true, fsWrite fs p) := by
  match resp with
  | none => exact Or.inl rfl
  | some (st, n) =>
    unfold download_image
    by_cases h4 : 400 ≤ st
    · exact Or.inl (by simp [h4])
    · by_cases hn : n < 10240
      · exact Or.inl (by simp [h4, hn])
      · exact Or.inr (by simp [h4, hn])

theorem repr_inj_small :
    ∀ n, n < 7 → ∀ m, m < 7 → Nat.repr n = Nat.repr m → n = m := by decide

theorem mkSavePath_inj (tid safe : String) (n m : Nat) (hn : n ≤ 6) (hm : m ≤ 6)
    (h : mkSavePath tid safe n = mkSavePath tid safe m) : n = m := by
  have hd := congrArg String.data h
  simp only [mkSavePath, data_append, List.append_assoc] at hd
  have h1 := List.append_cancel_left hd
  have h2 := List.append_cancel_left h1
  have h3 := List.append_cancel_left h2
  have h4 := List.append_cancel_left h3
  have h5 := List.append_cancel_left h4
  have h6 : (Nat.repr n).data = (Nat.repr m).data := List.append_cancel_right h5
  have h7 : Nat.repr n = Nat.repr m := by
    have := congrArg String.mk h6
    simpa using this
  exact repr_inj_small n (by omega) m (by omega) h7

theorem pathsFrom_length (tid safe : String) (s cnt : Nat) :
    (pathsFrom tid safe s cnt).length = cnt := by
  induction cnt generalizing s with
  | zero => rfl
  | succ c ih => simpa [pathsFrom] using ih (s + 1)

theorem pathsFrom_snoc (tid safe : String) (s cnt : Nat) :
    pathsFrom tid safe s cnt ++ [mkSavePath tid safe (s + cnt)] =
      pathsFrom tid safe s (cnt + 1) := by
  induction cnt generalizing s with
  | zero => simp [pathsFrom]
  | succ c ih =>
    show mkSavePath tid safe s :: pathsFrom tid safe (s + 1) c ++ _ = _
    rw [List.cons_append]
    have : s + (c + 1) = (s + 1) + c := by omega
    rw [this, ih (s + 1)]
    rfl

theorem mem_pathsFrom (tid safe : String) (s cnt : Nat) (p : String)
    (hp : p ∈ pathsFrom tid safe s cnt) :
    ∃ j, s ≤ j ∧ j < s + cnt ∧ p = mkSavePath tid safe j := by
  induction cnt generalizing s with
  | zero => cases hp
  | succ c ih =>
    rcases List.mem_cons.mp hp with rfl | hmem
    · exact ⟨s, le_refl s, by omega, rfl⟩
    · rcases ih (s + 1) hmem with ⟨j, hj1, hj2, hj3⟩
      exact ⟨j, by omega, by omega, hj3⟩

theorem enrichLoop_paths (o : EnrichOracle) (tid safe : String) (fs0 : FS)
    (hfresh : ∀ n, n ≤ 6 → mkSavePath tid safe n ∉ fs0) :
    ∀ (cands : List String) (i k : Nat), k + cands.length ≤ 4 →
    ∃ kk, k ≤ kk ∧ kk ≤ 4 ∧
      enrichLoop o tid safe cands i (pathsFrom tid safe 2 k)
          (fs0 ++ pathsFrom tid safe 2 k) =
        (pathsFrom tid safe 2 kk, fs0 ++ pathsFrom tid safe 2 kk) := by
  intro cands
  induction cands with
  | nil =>
    intro i k hk
    exact ⟨k, le_refl k, by simpa using hk, rfl⟩
  | cons u rest ih =>
    intro i k hk
    simp only [List.length_cons] at hk
    have hklen : (pathsFrom tid safe 2 k).length = k := pathsFrom_length tid safe 2 k
    have hnotmem : mkSavePath tid safe (k + 2) ∉ fs0 ++ pathsFrom tid safe 2 k := by
      intro hmem
      rcases List.mem_append.mp hmem with h1 | h2
      · exact hfresh (k + 2) (by omega) h1
      · rcases mem_pathsFrom tid safe 2 k _ h2 with ⟨j, hj1, hj2, hj3⟩
        have := mkSavePath_inj tid safe j (k + 2) (by omega) (by omega) hj3.symm
        omega
    simp only [enrichLoop, hklen]
    rcases download_image_cases (o.http i) (mkSavePath tid safe (k + 2))
        (fs0 ++ pathsFrom tid safe 2 k) with hdl | hdl
    · rw [hdl]
      simp only
      exact ih (i + 1) k (by omega)
    · rw [hdl]
      simp only
      have hwrite : fsWrite (fs0 ++ pathsFrom tid safe 2 k)
          (mkSavePath tid safe (k + 2)) =
          (fs0 ++ pathsFrom tid safe 2 k) ++ [mkSavePath tid safe (k + 2)] := by
        unfold fsWrite
        rw [if_neg hnotmem]
      by_cases hj : judge_image_with_gemini (o.judgeAttempts i) = true
      · rw [if_pos hj, hwrite]
        have hsnoc : pathsFrom tid safe 2 k ++ [mkSavePath tid safe (k + 2)] =
            pathsFrom tid safe 2 (k + 1) := by
          have : k + 2 = 2 + k := by omega
          rw [this]
          exact pathsFrom_snoc tid safe 2 k
        rw [List.append_assoc, hsnoc]
        rcases ih (i + 1) (k + 1) (by omega) with ⟨kk, hkk1, hkk2, hkk3⟩
        exact ⟨kk, by omega, hkk2, hkk3⟩
      · rw [if_neg hj, hwrite]
        have herase : ((fs0 ++ pathsFrom tid safe 2 k) ++
            [mkSavePath tid safe (k + 2)]).erase (mkSavePath tid safe (k + 2)) =
            fs0 ++ pathsFrom tid safe 2 k := by
          rw [List.erase_append_right _ hnotmem]
          simp
        rw [herase]
        exact ih (i + 1) k (by omega)

end DownloadImages

namespace DownloadImages

theorem enrichFinalize_spec (t0 : Topic) (tid safe : String) (fs0 : FS) (kk : Nat)
    (hfresh2 : mkSavePath tid safe 2 ∉ fs0) (hadd : t0.additional_images = []) :
    ((enrichFinalize t0 (pathsFrom tid safe 2 kk) (fs0 ++ pathsFrom tid safe 2 kk)).success = true →
      (enrichFinalize t0 (pathsFrom tid safe 2 kk) (fs0 ++ pathsFrom tid safe 2 kk)).fs =
        fs0 ++ ((enrichFinalize t0 (pathsFrom tid safe 2 kk) (fs0 ++ pathsFrom tid safe 2 kk)).topic.downloaded_image ::
          (enrichFinalize t0 (pathsFrom tid safe 2 kk) (fs0 ++ pathsFrom tid safe 2 kk)).topic.additional_images) ∧
      (enrichFinalize t0 (pathsFrom tid safe 2 kk) (fs0 ++ pathsFrom tid safe 2 kk)).topic.status =
        "image_downloaded") ∧
    ((enrichFinalize t0 (pathsFrom tid safe 2 kk) (fs0 ++ pathsFrom tid safe 2 kk)).success = false →
      (enrichFinalize t0 (pathsFrom tid safe 2 kk) (fs0 ++ pathsFrom tid safe 2 kk)).fs = fs0) := by
  match kk with
  | 0 =>
    refine ⟨fun h => by simp [enrichFinalize, pathsFrom] at h, fun _ => ?_⟩
    simp [enrichFinalize, pathsFrom]
  | 1 =>
    refine ⟨fun _ => ?_, fun h => ?_⟩
    · simp only [pathsFrom, enrichFinalize, List.isEmpty_nil, if_true, hadd]
      constructor <;> trivial
    · simp only [pathsFrom, enrichFinalize] at h
      cases h
  | kk2 + 2 =>
    have hshape : pathsFrom tid safe 2 (kk2 + 2) =
        mkSavePath tid safe 2 :: mkSavePath tid safe 3 :: pathsFrom tid safe 4 kk2 := rfl
    have hmem : mkSavePath tid safe 2 ∈
        fs0 ++ pathsFrom tid safe 2 (kk2 + 2) := by
      rw [hshape]
      exact List.mem_append.mpr (Or.inr (List.mem_cons_self _ _))
    have herase : (fs0 ++ pathsFrom tid safe 2 (kk2 + 2)).erase (mkSavePath tid safe 2) =
        fs0 ++ (mkSavePath tid safe 3 :: pathsFrom tid safe 4 kk2) := by
      rw [List.erase_append_right _ hfresh2, hshape, List.erase_cons_head]
    refine ⟨fun _ => ?_, fun h => ?_⟩
    · rw [hshape]
      simp only [enrichFinalize, List.isEmpty_cons, if_neg, Bool.false_eq_true,
        not_false_eq_true, if_pos (hshape ▸ hmem)]
      refine ⟨?_, trivial⟩
      rw [← hshape]
      exact herase
    · rw [hshape] at h
      simp only [enrichFinalize] at h
      split at h <;> cases h

end DownloadImages

namespace DownloadImages

/-- Claim C4 (amended): after `process_topic`, the files of the record's
topic present on disk are exactly the ones referenced by the record: all
accepted candidates' files except that, when two or more candidates were
accepted, the first accepted file is deleted as a duplicate and the record
references the remaining ones; every rejected candidate's file is removed.
On failure (no accepted media) the filesystem is restored unchanged. -/
theorem c4_enrichment_files_match_refs (o : EnrichOracle) (t : Topic) (fs0 : FS)
    (hfresh : ∀ n, n ≤ 6 → mkSavePath t.id (safeNames t.celebrities) n ∉ fs0)
    (hadd : t.additional_images = []) :
    ((process_topic o t fs0).success = true →
      (process_topic o t fs0).fs =
        fs0 ++ ((process_topic o t fs0).topic.downloaded_image ::
          (process_topic o t fs0).topic.additional_images) ∧
      (process_topic o t fs0).topic.status = "image_downloaded") ∧
    ((process_topic o t fs0).success = false →
      (process_topic o t fs0).fs = fs0) := by
  unfold process_topic
  by_cases hf : o.fetchOk = false
  · rw [if_pos hf]
    exact ⟨fun h => Bool.noConfusion h, fun _ => rfl⟩
  · rw [if_neg hf]
    simp only
    by_cases hemp : ((match o.og_image with | some u => [u] | none => []) ++
        o.article_images.take 3).isEmpty = true
    · rw [if_pos hemp]
      exact ⟨fun h => Bool.noConfusion h, fun _ => rfl⟩
    · rw [if_neg hemp]
      have hlen : ((match o.og_image with | some u => [u] | none => []) ++
          o.article_images.take 3).length ≤ 4 := by
        rw [List.length_append]
        have h1 : (match o.og_image with | some u => [u] | none => []).length ≤ 1 := by
          match o.og_image with
          | some u => exact le_refl 1
          | none => exact Nat.zero_le 1
        have h2 : (o.article_images.take 3).length ≤ 3 := by
          rw [List.length_take]
          exact min_le_left 3 _
        omega
      obtain ⟨kk, hk1, hk2, heq⟩ := enrichLoop_paths o t.id
        (safeNames t.celebrities) fs0 hfresh
        ((match o.og_image with | some u => [u] | none => []) ++
          o.article_images.take 3) 0 0 (by simpa using hlen)
      simp only [pathsFrom, List.append_nil] at heq
      rw [heq]
      have ht0add : (if o.content ≠ "" then { t with article_content := o.content }
          else t).additional_images = [] := by
        split <;> simpa using hadd
      exact enrichFinalize_spec _ t.id (safeNames t.celebrities) fs0 kk
        (hfresh 2 (by omega)) ht0add

end DownloadImages

namespace DownloadImages

/-- Claim C4 is false as stated: with two accepted candidates the first
accepted candidate's file `./images/t1_abc_2.jpg` is deleted by the
duplicate-removal block even though its judgment returned OK; only the
second accepted file remains on disk. -/
theorem c4_counterexample :
    judge_image_with_gemini (eoTwoAccept.judgeAttempts 0) = true ∧
    (process_topic eoTwoAccept tDet []).success = true ∧
    mkSavePath "t1" "abc" 2 ∉ (process_topic eoTwoAccept tDet []).fs ∧
    (process_topic eoTwoAccept tDet []).fs = [mkSavePath "t1" "abc" 3] := by
  decide

/-- Witness for the amended C4 at a concrete input: the two-accept run on a
fresh filesystem ends with the disk holding exactly the referenced files. -/
theorem c4_witness :
    (∀ n, n ≤ 6 →
      mkSavePath tDet.id (safeNames tDet.celebrities) n ∉ ([] : FS)) ∧
    tDet.additional_images = [] ∧
    (process_topic eoTwoAccept tDet []).success = true ∧
    ((process_topic eoTwoAccept tDet []).fs =
        [] ++ ((process_topic eoTwoAccept tDet []).topic.downloaded_image ::
          (process_topic eoTwoAccept tDet []).topic.additional_images) ∧
      (process_topic eoTwoAccept tDet []).topic.status = "image_downloaded") :=
  ⟨by decide, by decide, by decide,
    (c4_enrichment_files_match_refs eoTwoAccept tDet [] (by decide)
      (by decide)).1 (by decide)⟩

theorem judgeGo_none (attempts : Nat → Option String)
    (h : ∀ j, attempts j = none) :
    ∀ fuel i, judgeGo attempts fuel i = false := by
  intro fuel
  induction fuel with
  | zero => intro i; rfl
  | succ f ih =>
    intro i
    simp only [judgeGo, h i]
    exact ih (i + 1)

theorem enrichLoop_noaccept (o : EnrichOracle) (tid safe : String) (fs : FS)
    (h2 : mkSavePath tid safe 2 ∉ fs)
    (hj : ∀ i, judge_image_with_gemini (o.judgeAttempts i) = false) :
    ∀ (cands : List String) (i : Nat),
      enrichLoop o tid safe cands i [] fs = ([], fs) := by
  intro cands
  induction cands with
  | nil => intro i; rfl
  | cons u rest ih =>
    intro i
    simp only [enrichLoop, List.length_nil, Nat.zero_add]
    rcases download_image_cases (o.http i) (mkSavePath tid safe 2) fs with hdl | hdl
    · rw [hdl]
      simp only
      exact ih (i + 1)
    · rw [hdl]
      simp only
      have hjf : ¬ (judge_image_with_gemini (o.judgeAttempts i) = true) := by
        simp [hj i]
      rw [if_neg hjf]
      have hwrite : fsWrite fs (mkSavePath tid safe 2) =
          fs ++ [mkSavePath tid safe 2] := by
        unfold fsWrite
        rw [if_neg h2]
      rw [hwrite, List.erase_append_right _ h2, List.erase_cons_head,
        List.append_nil]
      exact ih (i + 1)

end DownloadImages

namespace Generate

theorem genLoop_none (attempts : Nat → Option GenResult)
    (h : ∀ j, attempts j = none) :
    ∀ fuel i, genLoop attempts fuel i = none := by
  intro fuel
  induction fuel with
  | zero => intro i; rfl
  | succ f ih =>
    intro i
    simp only [genLoop, h i]
    exact ih (i + 1)

end Generate

/-- Claim C5 is false as stated: a media candidate whose Gemini judgment
raises on all three attempts is treated exactly like an NG verdict — the
downloaded file is deleted, not kept.  Concretely, with one candidate whose
download succeeds (`http` returns a 200 response of 20000 bytes) and whose
judgment calls all raise, the stage ends with an empty filesystem. -/
theorem c5_counterexample :
    DownloadImages.judge_image_with_gemini
      (DownloadImages.eoJudgeErr.judgeAttempts 0) = false ∧
    (DownloadImages.download_image (DownloadImages.eoJudgeErr.http 0)
      (DownloadImages.mkSavePath "t1" "abc" 2) []).1 = true ∧
    (DownloadImages.process_topic DownloadImages.eoJudgeErr tDet []).fs = [] ∧
    (DownloadImages.process_topic DownloadImages.eoJudgeErr tDet []).success
      = false := by
  decide

/-- Claim C5 (amended): exhausting the Composition generation retries
yields no result and the caller leaves the record unchanged for a future
run; but exhausting the Enrichment media-judgment retries returns `False`,
which the caller treats as a rejection — the downloaded file is deleted
(the filesystem is restored), the run reports no success, and only the
record's state (not the candidate's file) survives for retry. -/
theorem c5_retry_exhaustion (genAttempts : Nat → Option Generate.GenResult)
    (o : DownloadImages.EnrichOracle) (t u : Topic) (fs0 : FS)
    (hg : ∀ i, genAttempts i = none)
    (hj : ∀ i j, o.judgeAttempts i j = none)
    (hfresh2 : DownloadImages.mkSavePath u.id
      (DownloadImages.safeNames u.celebrities) 2 ∉ fs0) :
    Generate.generate_content genAttempts = none ∧
    Generate.compositionRecord genAttempts t = t ∧
    DownloadImages.judge_image_with_gemini (o.judgeAttempts 0) = false ∧
    (DownloadImages.process_topic o u fs0).success = false ∧
    (DownloadImages.process_topic o u fs0).fs = fs0 ∧
    (DownloadImages.process_topic o u fs0).topic.status = u.status := by
  have hgen : Generate.generate_content genAttempts = none :=
    Generate.genLoop_none genAttempts hg 3 0
  have hjudge : ∀ i, DownloadImages.judge_image_with_gemini
      (o.judgeAttempts i) = false :=
    fun i => DownloadImages.judgeGo_none (o.judgeAttempts i) (hj i) 3 0
  refine ⟨hgen, ?_, hjudge 0, ?_⟩
  · unfold Generate.compositionRecord
    split
    · rw [hgen]
    · rfl
  · unfold DownloadImages.process_topic
    by_cases hf : o.fetchOk = false
    · rw [if_pos hf]
      exact ⟨rfl, rfl, rfl⟩
    · rw [if_neg hf]
      simp only
      by_cases hemp : ((match o.og_image with | some v => [v] | none => []) ++
          o.article_images.take 3).isEmpty = true
      · rw [if_pos hemp]
        refine ⟨rfl, rfl, ?_⟩
        split <;> rfl
      · rw [if_neg hemp]
        rw [DownloadImages.enrichLoop_noaccept o u.id
          (DownloadImages.safeNames u.celebrities) fs0 hfresh2 hjudge _ 0]
        refine ⟨rfl, rfl, ?_⟩
        split <;> rfl

/-- Witness for the amended C5 at concrete inputs: all-failing generation
attempts leave the composed record untouched, and all-failing judgment
attempts empty the filesystem. -/
theorem c5_witness :
    (∀ i, (fun _ : Nat => (none : Option Generate.GenResult)) i = none) ∧
    (∀ i j, DownloadImages.eoJudgeErr.judgeAttempts i j = none) ∧
    (DownloadImages.mkSavePath tDet.id
      (DownloadImages.safeNames tDet.celebrities) 2 ∉ ([] : FS)) ∧
    (Generate.generate_content (fun _ => none) = none ∧
      Generate.compositionRecord (fun _ => none) tImg = tImg ∧
      DownloadImages.judge_image_with_gemini
        (DownloadImages.eoJudgeErr.judgeAttempts 0) = false ∧
      (DownloadImages.process_topic DownloadImages.eoJudgeErr tDet []).success
        = false ∧
      (DownloadImages.process_topic DownloadImages.eoJudgeErr tDet []).fs = [] ∧
      (DownloadImages.process_topic DownloadImages.eoJudgeErr tDet
        []).topic.status = tDet.status) :=
  ⟨fun _ => rfl, fun _ _ => rfl, by decide,
    c5_retry_exhaustion (fun _ => none) DownloadImages.eoJudgeErr tImg tDet []
      (fun _ => rfl) (fun _ _ => rfl) (by decide)⟩

/-- Claim C3 is false as stated: tool 3 stores the generated post text with
no truncation, so a 100-character classifier result is stored at its full
100-character length, exceeding the 80-character budget fixed in the
generation prompt. -/
theorem c3_counterexample :
    (Generate.compositionRecord (fun _ => some genLong)
      tImg).generated_post_text = longPost ∧
    80 < (Generate.compositionRecord (fun _ => some genLong)
      tImg).generated_post_text.length := by
  decide

/-- Claim C3 (amended): the Composition stage stores the generated title
and post text exactly as returned by the classifier — no truncation to any
character budget is applied at this stage; the only length control is the
80-character instruction inside the prompt, and truncation to the posting
channel's 280 limit happens later, in the Publication stage. -/
theorem c3_composition_stores_verbatim (attempts : Nat → Option Generate.GenResult)
    (t : Topic) (c : Generate.GenResult)
    (hready : t.status = "image_downloaded") (htitle : t.generated_title = "")
    (hgen : Generate.generate_content attempts = some c) :
    (Generate.compositionRecord attempts t).generated_post_text = c.post_text ∧
    (Generate.compositionRecord attempts t).generated_title = c.title ∧
    (Generate.compositionRecord attempts t).status = "content_generated" := by
  unfold Generate.compositionRecord
  rw [if_pos ⟨hready, htitle⟩, hgen]
  exact ⟨rfl, rfl, rfl⟩

/-- Witness for the amended C3 at concrete inputs. -/
theorem c3_witness :
    tImg.status = "image_downloaded" ∧
    tImg.generated_title = "" ∧
    Generate.generate_content (fun _ => some genLong) = some genLong ∧
    ((Generate.compositionRecord (fun _ => some genLong)
        tImg).generated_post_text = genLong.post_text ∧
      (Generate.compositionRecord (fun _ => some genLong)
        tImg).generated_title = genLong.title ∧
      (Generate.compositionRecord (fun _ => some genLong) tImg).status =
        "content_generated") :=
  ⟨rfl, rfl, rfl,
    c3_composition_stores_verbatim (fun _ => some genLong) tImg genLong rfl rfl
      rfl⟩

theorem strLength_append (a b : String) : (a ++ b).length = a.length + b.length := by
  show (a.data ++ b.data).length = a.data.length + b.data.length
  exact List.length_append a.data b.data

theorem pyslice_length (s : String) (n : Nat) :
    (pyslice s n).length = min n s.length := by
  show (s.data.take n).length = min n s.data.length
  exact List.length_take n s.data

set_option maxRecDepth 8000 in
/-- Claim C7 is false as stated: with a 284-character configured base URL
the truncated outbound message is still 298 characters long, above the
280-character hard limit (the code's budget assumes the channel counts any
URL as roughly 23 characters). -/
theorem c7_counterexample :
    280 < (PostToX.compose_full_text "x"
      (PostToX.generate_page_url longBase "t1")).length := by
  decide

/-- Claim C7 (amended): after the truncation step the outbound message is
within the 280-character hard limit provided the artifact URL is at most 25
characters long; the truncation caps the short text at `280 - 25 - 5`
characters plus a 3-character ellipsis, so for longer URLs the raw message
can exceed 280 (the code relies on the posting channel weighting every URL
as 23 characters). -/
theorem c7_publication_length (post_text site_url : String)
    (hurl : site_url.length ≤ 25) :
    (PostToX.compose_full_text post_text site_url).length ≤ 280 := by
  simp only [PostToX.compose_full_text]
  split
  · rw [strLength_append, strLength_append, strLength_append, pyslice_length]
    have h1 : min (280 - 25 - 5) post_text.length ≤ 250 := by
      have := min_le_left (280 - 25 - 5) post_text.length
      omega
    have h2 : ("..." : String).length = 3 := rfl
    have h3 : ("\n\n" : String).length = 2 := rfl
    omega
  · rename_i h
    omega

/-- Witness for the amended C7 at concrete inputs: a 22-character page URL
keeps every message within 280 characters. -/
theorem c7_witness :
    (PostToX.generate_page_url "https://u.io/r/" "t1").length ≤ 25 ∧
    (PostToX.compose_full_text "hello"
      (PostToX.generate_page_url "https://u.io/r/" "t1")).length ≤ 280 :=
  ⟨by decide,
    c7_publication_length "hello" (PostToX.generate_page_url "https://u.io/r/" "t1")
      (by decide)⟩

namespace PostToX

theorem pubProcessIdx_other (o : PubOracle) (base : String) (s : PubState)
    (i j : Nat) (hij : j ≠ i) :
    (pubProcessIdx o base s j).data.get? i = s.data.get? i := by
  unfold pubProcessIdx
  by_cases hstop : s.stopped = true
  · rw [if_pos hstop]
  · rw [if_neg hstop]
    cases hj : s.data.get? j with
    | none => rfl
    | some u =>
      dsimp only
      cases o.approval u with
      | quit => rfl
      | skip => rfl
      | approve =>
        dsimp only
        cases post_to_twitter o.postApi u base with
        | none => rfl
        | some tid => exact List.get?_set_ne _ _ hij

theorem pubProcessIdx_keeps_failed (o : PubOracle) (base : String)
    (s : PubState) (i : Nat) (t : Topic) (hget : s.data.get? i = some t)
    (hfail : post_to_twitter o.postApi t base = none) :
    (pubProcessIdx o base s i).data.get? i = some t := by
  unfold pubProcessIdx
  by_cases hstop : s.stopped = true
  · rw [if_pos hstop]; exact hget
  · rw [if_neg hstop, hget]
    dsimp only
    cases o.approval t with
    | quit => exact hget
    | skip => exact hget
    | approve =>
      dsimp only
      rw [hfail]
      exact hget

theorem pubFold_keeps_failed (o : PubOracle) (base : String) (L : List Nat)
    (s : PubState) (i : Nat) (t : Topic) (hget : s.data.get? i = some t)
    (hfail : post_to_twitter o.postApi t base = none) :
    ((L.foldl (pubProcessIdx o base) s).data.get? i) = some t := by
  induction L generalizing s with
  | nil => exact hget
  | cons j rest ih =>
    apply ih
    by_cases hij : j = i
    · subst hij
      exact pubProcessIdx_keeps_failed o base s j t hget hfail
    · rw [pubProcessIdx_other o base s i j hij]
      exact hget

end PostToX

/-- Claim C6: in the Publication stage, a successful post stamps the record
(`posted_tweet_id`, status `posted`, `posted_at`, `final_url`) and persists
the whole store immediately, before the next record is processed; a
posting-API failure leaves the record and the persisted store completely
unchanged, and the record is not retried within the run (it is unchanged at
the end of the run). -/
theorem c6_publication_stamp_and_persist (o : PostToX.PubOracle)
    (base : String) (s : PostToX.PubState) (i : Nat) (t : Topic) (tid : String)
    (data persisted : List Topic) :
    (s.stopped = false → s.data.get? i = some t →
      o.approval t = PostToX.ApprovalChoice.approve →
      PostToX.post_to_twitter o.postApi t base = some tid →
      PostToX.pubProcessIdx o base s i =
        ⟨s.data.set i (PostToX.stampTopic t tid o.now base),
         s.data.set i (PostToX.stampTopic t tid o.now base), false⟩) ∧
    ((PostToX.stampTopic t tid o.now base).posted_tweet_id = tid ∧
      (PostToX.stampTopic t tid o.now base).status = "posted" ∧
      (PostToX.stampTopic t tid o.now base).posted_at = o.now ∧
      (PostToX.stampTopic t tid o.now base).final_url =
        PostToX.generate_page_url base t.id) ∧
    (s.data.get? i = some t →
      o.approval t = PostToX.ApprovalChoice.approve →
      PostToX.post_to_twitter o.postApi t base = none →
      PostToX.pubProcessIdx o base s i = s) ∧
    (data.get? i = some t →
      PostToX.post_to_twitter o.postApi t base = none →
      (PostToX.pubRun o base data persisted).data.get? i = some t) := by
  refine ⟨?_, ⟨rfl, rfl, rfl, rfl⟩, ?_, ?_⟩
  · intro hstop hget happ hpost
    unfold PostToX.pubProcessIdx
    rw [if_neg (by rw [hstop]; exact Bool.false_ne_true), hget]
    dsimp only
    rw [happ]
    dsimp only
    rw [hpost, hstop]
  · intro hget happ hpost
    unfold PostToX.pubProcessIdx
    by_cases hstop : s.stopped = true
    · rw [if_pos hstop]
    · rw [if_neg hstop, hget]
      dsimp only
      rw [happ]
      dsimp only
      rw [hpost]
  · intro hget hfail
    exact PostToX.pubFold_keeps_failed o base (PostToX.readyIdx data)
      ⟨data, persisted, false⟩ i t hget hfail

/-- Witness for C6 at concrete inputs: a one-record store at
`content_generated`; the success branch persists the stamped store at once
and the failure branch leaves the record in place at the end of the run. -/
theorem c6_witness :
    ((⟨[tGen], [], false⟩ : PostToX.PubState).stopped = false) ∧
    ((⟨[tGen], [], false⟩ : PostToX.PubState).data.get? 0 = some tGen) ∧
    (poOK.approval tGen = PostToX.ApprovalChoice.approve) ∧
    (PostToX.post_to_twitter poOK.postApi tGen "https://u.io/r/" = some "99") ∧
    (PostToX.pubProcessIdx poOK "https://u.io/r/" ⟨[tGen], [], false⟩ 0 =
      ⟨[tGen].set 0 (PostToX.stampTopic tGen "99" poOK.now "https://u.io/r/"),
       [tGen].set 0 (PostToX.stampTopic tGen "99" poOK.now "https://u.io/r/"),
       false⟩) ∧
    ((PostToX.pubRun poFail "https://u.io/r/" [tGen] []).data.get? 0 =
      some tGen) :=
  ⟨rfl, rfl, rfl, by decide,
    (c6_publication_stamp_and_persist poOK "https://u.io/r/"
      ⟨[tGen], [], false⟩ 0 tGen "99" [tGen] []).1 rfl rfl rfl (by decide),
    (c6_publication_stamp_and_persist poFail "https://u.io/r/"
      ⟨[tGen], [], false⟩ 0 tGen "99" [tGen] []).2.2.2 rfl (by decide)⟩

namespace MonitorRss

theorem processEntry_length_le (o : DOracle) (sn : String) (data : List Topic)
    (e : Entry) : data.length ≤ (processEntry o sn data e).length := by
  unfold processEntry
  split
  · exact le_refl _
  · match o.classify e with
    | none => exact le_refl _
    | some r =>
      dsimp only
      split
      · simp
      · exact le_refl _

theorem processEntry_get (o : DOracle) (sn : String) (data : List Topic)
    (e : Entry) (i : Nat) (h : i < data.length) :
    (processEntry o sn data e).get? i = data.get? i := by
  unfold processEntry
  split
  · rfl
  · match o.classify e with
    | none => rfl
    | some r =>
      dsimp only
      split
      · exact List.get?_append h
      · rfl

theorem foldl_entries_length_le (o : DOracle) (sn : String) (l : List Entry)
    (data : List Topic) :
    data.length ≤ (l.foldl (processEntry o sn) data).length := by
  induction l generalizing data with
  | nil => exact le_refl _
  | cons e rest ih =>
    exact le_trans (processEntry_length_le o sn data e)
      (ih (processEntry o sn data e))

theorem foldl_entries_get (o : DOracle) (sn : String) (l : List Entry)
    (data : List Topic) (i : Nat) (h : i < data.length) :
    (l.foldl (processEntry o sn) data).get? i = data.get? i := by
  induction l generalizing data with
  | nil => rfl
  | cons e rest ih =>
    rw [List.foldl_cons,
      ih (processEntry o sn data e)
        (lt_of_lt_of_le h (processEntry_length_le o sn data e)),
      processEntry_get o sn data e i h]

theorem discoveryRun_length_le (o : DOracle) (sources : List Source)
    (data : List Topic) :
    data.length ≤ (discoveryRun o sources data).length := by
  induction sources generalizing data with
  | nil => exact le_refl _
  | cons s rest ih =>
    exact le_trans (foldl_entries_length_le o s.sname _ data)
      (ih (processSource o s data))

theorem discoveryRun_get (o : DOracle) (sources : List Source)
    (data : List Topic) (i : Nat) (h : i < data.length) :
    (discoveryRun o sources data).get? i = data.get? i := by
  induction sources generalizing data with
  | nil => rfl
  | cons s rest ih =>
    show (discoveryRun o rest (processSource o s data)).get? i = data.get? i
    rw [ih (processSource o s data)
      (lt_of_lt_of_le h (foldl_entries_length_le o s.sname _ data))]
    exact foldl_entries_get o s.sname (s.entries.take 10) data i h

end MonitorRss

namespace DownloadImages

theorem enrichFinalize_status (t0 : Topic) (approved : List String) (fs : FS) :
    (enrichFinalize t0 approved fs).topic.status = t0.status ∨
    (enrichFinalize t0 approved fs).topic.status = "image_downloaded" := by
  match approved with
  | [] => exact Or.inl rfl
  | [a] => exact Or.inr rfl
  | a :: b :: rest =>
    unfold enrichFinalize
    dsimp only
    split
    · exact Or.inr rfl
    · exact Or.inr rfl

theorem process_topic_status (o : EnrichOracle) (t : Topic) (fs : FS) :
    (process_topic o t fs).topic.status = t.status ∨
    (process_topic o t fs).topic.status = "image_downloaded" := by
  unfold process_topic
  by_cases hf : o.fetchOk = false
  · rw [if_pos hf]
    exact Or.inl rfl
  · rw [if_neg hf]
    simp only
    by_cases hemp : ((match o.og_image with | some v => [v] | none => []) ++
        o.article_images.take 3).isEmpty = true
    · rw [if_pos hemp]
      left
      split <;> rfl
    · rw [if_neg hemp]
      have ht0 : (if o.content ≠ "" then
          ({ t with article_content := o.content } : Topic) else t).status =
          t.status := by
        split <;> rfl
      exact (enrichFinalize_status _ _ _).imp (fun h => h.trans ht0) id

theorem enrichRunAux_get (oracle : Topic → EnrichOracle) :
    ∀ (l : List Topic) (fs : FS) (i : Nat),
    ∃ fs2, ((enrichRunAux oracle l fs).1.get? i) =
      (l.get? i).map (fun t =>
        if t.status = "detected" then (process_topic (oracle t) t fs2).topic
        else t) := by
  intro l
  induction l with
  | nil => intro fs i; exact ⟨fs, rfl⟩
  | cons t rest ih =>
    intro fs i
    by_cases ht : t.status = "detected"
    · cases i with
      | zero => exact ⟨fs, by simp [enrichRunAux, ht]⟩
      | succ n =>
        obtain ⟨fs2, h⟩ := ih (process_topic (oracle t) t fs).fs n
        exact ⟨fs2, by simpa [enrichRunAux, ht] using h⟩
    · cases i with
      | zero => exact ⟨fs, by simp [enrichRunAux, ht]⟩
      | succ n =>
        obtain ⟨fs2, h⟩ := ih fs n
        exact ⟨fs2, by simpa [enrichRunAux, ht] using h⟩

end DownloadImages

namespace Generate

theorem compositionRecord_cases (attempts : Nat → Option GenResult)
    (t : Topic) :
    compositionRecord attempts t = t ∨
    (t.status = "image_downloaded" ∧
      (compositionRecord attempts t).status = "content_generated") := by
  unfold compositionRecord
  split
  · rename_i hcond
    match generate_content attempts with
    | some c => exact Or.inr ⟨hcond.1, rfl⟩
    | none => exact Or.inl rfl
  · exact Or.inl rfl

theorem compositionRecord_not_ready (attempts : Nat → Option GenResult)
    (t : Topic) (h : t.status ≠ "image_downloaded") :
    compositionRecord attempts t = t := by
  unfold compositionRecord
  rw [if_neg (fun hc => h hc.1)]

end Generate

namespace PostToX

theorem pubProcessIdx_get_cases (o : PubOracle) (base : String) (s : PubState)
    (j i : Nat) (tNew : Topic)
    (h : (pubProcessIdx o base s j).data.get? i = some tNew) :
    s.data.get? i = some tNew ∨ tNew.status = "posted" := by
  unfold pubProcessIdx at h
  by_cases hstop : s.stopped = true
  · rw [if_pos hstop] at h
    exact Or.inl h
  · rw [if_neg hstop] at h
    cases hj : s.data.get? j with
    | none => rw [hj] at h; exact Or.inl h
    | some u =>
      rw [hj] at h
      dsimp only at h
      cases happ : o.approval u with
      | quit => rw [happ] at h; exact Or.inl h
      | skip => rw [happ] at h; exact Or.inl h
      | approve =>
        rw [happ] at h
        dsimp only at h
        cases hpost : post_to_twitter o.postApi u base with
        | none => rw [hpost] at h; exact Or.inl h
        | some tid =>
          rw [hpost] at h
          dsimp only at h
          by_cases hij : j = i
          · subst hij
            have hlt : j < s.data.length := by
              by_contra hge
              rw [List.get?_eq_none.mpr (le_of_not_lt hge)] at hj
              cases hj
            rw [List.get?_set_eq_of_lt _ hlt] at h
            injection h with h2
            right
            rw [← h2]
            rfl
          · rw [List.get?_set_ne _ _ hij] at h
            exact Or.inl h

theorem pubFold_get_cases (o : PubOracle) (base : String) :
    ∀ (L : List Nat) (s : PubState) (i : Nat) (tNew : Topic),
    ((L.foldl (pubProcessIdx o base) s).data.get? i = some tNew) →
    s.data.get? i = some tNew ∨ tNew.status = "posted" := by
  intro L
  induction L with
  | nil => intro s i tNew h; exact Or.inl h
  | cons j rest ih =>
    intro s i tNew h
    rcases ih (pubProcessIdx o base s j) i tNew h with h2 | h2
    · exact pubProcessIdx_get_cases o base s j i tNew h2
    · exact Or.inr h2

theorem pubFold_not_mem (o : PubOracle) (base : String) :
    ∀ (L : List Nat) (s : PubState) (i : Nat), i ∉ L →
    (L.foldl (pubProcessIdx o base) s).data.get? i = s.data.get? i := by
  intro L
  induction L with
  | nil => intro s i _; rfl
  | cons j rest ih =>
    intro s i hmem
    rw [List.foldl_cons,
      ih (pubProcessIdx o base s j) i (fun hr => hmem (List.mem_cons_of_mem j hr)),
      pubProcessIdx_other o base s i j (fun he => hmem (he ▸ List.mem_cons_self j rest))]

theorem isReady_status (t : Topic) (h : isReady t = true) :
    t.status = "content_generated" := by
  unfold isReady at h
  rw [Bool.and_eq_true] at h
  exact eq_of_beq h.1

theorem not_ready_not_mem_readyIdx (data : List Topic) (i : Nat) (t : Topic)
    (hget : data.get? i = some t) (hnr : isReady t = false) :
    i ∉ readyIdx data := by
  intro hmem
  unfold readyIdx at hmem
  have := (List.mem_filter.mp hmem).2
  rw [hget] at this
  dsimp only at this
  rw [hnr] at this
  cases this

end PostToX

/-- Claim C1: every stage run leaves each record's lifecycle state unchanged
or advances it exactly one step along
`detected → image_downloaded → content_generated → posted` (no regression,
no skipping), and a stage re-run against an already-advanced record leaves
that record unchanged: Discovery never touches existing records, Enrichment
only processes `detected` records, Composition only processes
`image_downloaded` records, Publication only processes ready
(`content_generated`, unposted) records. -/
theorem c1_stage_monotonic_one_step (dOr : MonitorRss.DOracle)
    (sources : List MonitorRss.Source)
    (eOr : Topic → DownloadImages.EnrichOracle)
    (cOr : Topic → Nat → Option Generate.GenResult)
    (pOr : PostToX.PubOracle) (base : String) (fs0 : FS)
    (dataD dataE dataC dataP persisted : List Topic) (i : Nat) :
    (i < dataD.length →
      (MonitorRss.discoveryRun dOr sources dataD).get? i = dataD.get? i) ∧
    (∀ t tNew, dataE.get? i = some t →
      (DownloadImages.enrichRunAux eOr dataE fs0).1.get? i = some tNew →
      Allowed t tNew ∧ (t.status ≠ "detected" → tNew = t)) ∧
    (∀ t tNew, dataC.get? i = some t →
      (Generate.compositionRun cOr dataC).get? i = some tNew →
      Allowed t tNew ∧ (t.status ≠ "image_downloaded" → tNew = t)) ∧
    (∀ t tNew, dataP.get? i = some t →
      (PostToX.pubRun pOr base dataP persisted).data.get? i = some tNew →
      Allowed t tNew ∧ (PostToX.isReady t = false → tNew = t)) := by
  refine ⟨?_, ?_, ?_, ?_⟩
  · exact fun h => MonitorRss.discoveryRun_get dOr sources dataD i h
  · intro t tNew hget hrun
    obtain ⟨fs2, hmap⟩ := DownloadImages.enrichRunAux_get eOr dataE fs0 i
    rw [hget] at hmap
    rw [hrun] at hmap
    injection hmap with hmap
    dsimp only at hmap
    by_cases ht : t.status = "detected"
    · rw [if_pos ht] at hmap
      constructor
      · rcases DownloadImages.process_topic_status (eOr t) t fs2 with hs | hs
        · left; rw [hmap]; exact hs
        · right
          rw [ht, hmap, hs]
          decide
      · intro hcon; exact absurd ht hcon
    · rw [if_neg ht] at hmap
      exact ⟨Or.inl (by rw [hmap]), fun _ => hmap⟩
  · intro t tNew hget hrun
    unfold Generate.compositionRun at hrun
    rw [List.get?_map, hget] at hrun
    injection hrun with hrun
    dsimp only at hrun
    rcases Generate.compositionRecord_cases (cOr t) t with hc | ⟨hc1, hc2⟩
    · rw [hc] at hrun
      exact ⟨Or.inl (by rw [← hrun]), fun _ => hrun.symm⟩
    · constructor
      · right
        rw [hc1, ← hrun, hc2]
        decide
      · intro hcon; exact absurd hc1 hcon
  · intro t tNew hget hrun
    unfold PostToX.pubRun at hrun
    rcases PostToX.pubFold_get_cases pOr base (PostToX.readyIdx dataP)
        ⟨dataP, persisted, false⟩ i tNew hrun with hc | hc
    · rw [hget] at hc
      injection hc with hc
      exact ⟨Or.inl (by rw [hc]), fun _ => hc.symm⟩
    · by_cases hr : PostToX.isReady t = true
      · constructor
        · right
          rw [PostToX.isReady_status t hr, hc]
          decide
        · intro hcon; rw [hr] at hcon; cases hcon
      · have hnr : PostToX.isReady t = false := by
          cases hbool : PostToX.isReady t
          · rfl
          · exact absurd hbool hr
        have hnm := PostToX.not_ready_not_mem_readyIdx dataP i t hget hnr
        rw [PostToX.pubFold_not_mem pOr base (PostToX.readyIdx dataP)
          ⟨dataP, persisted, false⟩ i hnm] at hrun
        rw [hget] at hrun
        injection hrun with hrun
        exact ⟨Or.inl (by rw [← hrun]), fun _ => hrun.symm⟩

/-- Witness for C1 at concrete inputs: one-record stores at each lifecycle
state, with failing external services so each run is an identity on the
record. -/
theorem c1_witness :
    ((0 : Nat) < ([tDet] : List Topic).length) ∧
    ((MonitorRss.discoveryRun dOrEmpty [] [tDet]).get? 0 = [tDet].get? 0) ∧
    (([tDet] : List Topic).get? 0 = some tDet) ∧
    ((DownloadImages.enrichRunAux (fun _ => DownloadImages.eoNoFetch)
      [tDet] []).1.get? 0 = some tDet) ∧
    (Allowed tDet tDet ∧ (tDet.status ≠ "detected" → tDet = tDet)) ∧
    (([tImg] : List Topic).get? 0 = some tImg) ∧
    ((Generate.compositionRun (fun _ _ => none) [tImg]).get? 0 = some tImg) ∧
    (Allowed tImg tImg ∧ (tImg.status ≠ "image_downloaded" → tImg = tImg)) ∧
    (([tGen] : List Topic).get? 0 = some tGen) ∧
    ((PostToX.pubRun poFail "b" [tGen] []).data.get? 0 = some tGen) ∧
    (Allowed tGen tGen ∧ (PostToX.isReady tGen = false → tGen = tGen)) :=
  ⟨by decide,
    (c1_stage_monotonic_one_step dOrEmpty [] (fun _ => DownloadImages.eoNoFetch)
      (fun _ _ => none) poFail "b" [] [tDet] [tDet] [tImg] [tGen] [] 0).1
      (by decide),
    rfl,
    by decide,
    (c1_stage_monotonic_one_step dOrEmpty [] (fun _ => DownloadImages.eoNoFetch)
      (fun _ _ => none) poFail "b" [] [tDet] [tDet] [tImg] [tGen] [] 0).2.1
      tDet tDet rfl (by decide),
    rfl,
    by decide,
    (c1_stage_monotonic_one_step dOrEmpty [] (fun _ => DownloadImages.eoNoFetch)
      (fun _ _ => none) poFail "b" [] [tDet] [tDet] [tImg] [tGen] [] 0).2.2.1
      tImg tImg rfl (by decide),
    rfl,
    by decide,
    (c1_stage_monotonic_one_step dOrEmpty [] (fun _ => DownloadImages.eoNoFetch)
      (fun _ _ => none) poFail "b" [] [tDet] [tDet] [tImg] [tGen] [] 0).2.2.2
      tGen tGen rfl (by decide)⟩
